import Mathlib

/-!
Shallow embedding of the Gringo787 site build scripts: the combined sitemap
and robots builder (scripts/seo.js as produced by the repository setup
script), the legacy standalone generators scripts/seo.js and
scripts/robots.js, and scripts/validate-build.js.  Paths and file contents
are modelled as lists of characters; filesystem state is passed explicitly.
-/

/-- Boolean test that the pattern list is an initial run of the string list,
modelling the JS String.prototype.startsWith test on the underlying
characters. -/
def leadsWith : List Char → List Char → Bool
  | [], _ => true
  | _ :: _, [] => false
  | a :: pa, b :: pb => a == b && leadsWith pa pb

/-- Boolean test that the pattern list is a final run of the string list,
modelling the JS String.prototype.endsWith test. -/
def trailsWith (pat s : List Char) : Bool :=
  leadsWith pat.reverse s.reverse

/-- Model of JS String.prototype.replace with a plain string pattern: only
the first occurrence, scanning left to right, is replaced. -/
def replaceFirst (pat rep : List Char) : List Char → List Char
  | [] => if leadsWith pat [] then rep else []
  | c :: cs =>
    if leadsWith pat (c :: cs) then rep ++ (c :: cs).drop pat.length
    else c :: replaceFirst pat rep cs

/-- Boolean substring containment over character lists. -/
def containsSub (pat : List Char) : List Char → Bool
  | [] => leadsWith pat []
  | c :: cs => leadsWith pat (c :: cs) || containsSub pat cs

/-- Character class accepted by JS String.prototype.trim, restricted to the
whitespace code points that can occur in the robots text handled here. -/
def isJsSpace (c : Char) : Bool :=
  c == ' ' || c == '\t' || c == '\n' || c == '\r' || c == '\x0b' || c == '\x0c'

/-- Model of JS String.prototype.trim: leading and trailing whitespace is
removed. -/
def jsTrim (s : List Char) : List Char :=
  ((s.dropWhile isJsSpace).reverse.dropWhile isJsSpace).reverse

/-- Pattern matched by the include glob public/**/*.html of the GLOBS list
in the sitemap builder: an html file somewhere under the public root. -/
def isHtmlGlob (p : List Char) : Bool :=
  leadsWith "public/".data p && trailsWith ".html".data p

/-- Pattern matched by the exclusion glob !public/404.html: exactly the
root-level custom not-found page. -/
def isNotFoundPage (p : List Char) : Bool :=
  p == "public/404.html".data

/-- Pattern matched by the exclusion glob !public/**/thanks/index.html: a
thank-you index page at any depth (the glob star-star crosses segment
boundaries, and the final segments must match exactly). -/
def isThanksPage (p : List Char) : Bool :=
  leadsWith "public/".data p && trailsWith "/thanks/index.html".data p

/-- Combined exclusion test of the two negative globs. -/
def isExcludedPage (p : List Char) : Bool :=
  isNotFoundPage p || isThanksPage p

/-- Filtering performed by globby for the GLOBS pattern list of the sitemap
builder: html files under public, minus the two exclusions, in listing
order. -/
def globFilter (files : List (List Char)) : List (List Char) :=
  files.filter (fun p => isHtmlGlob p && !isExcludedPage p)

/-- Model of the map step p.replace(anchored public regex, empty string):
a leading public segment is stripped, other paths pass unchanged. -/
def stripPub (p : List Char) : List Char :=
  if leadsWith "public".data p then p.drop 6 else p

/-- Suffix used by the directory-index collapse. -/
def slashIndexHtml : List Char := "/index.html".data

/-- Model of the normalization line of the sitemap builder: when the url
ends with /index.html, the FIRST occurrence of /index.html is replaced by a
slash (JS replace with a string pattern); otherwise the url is kept. -/
def normalizeUrl (url : List Char) : List Char :=
  if trailsWith slashIndexHtml url then replaceFirst slashIndexHtml ['/'] url
  else url

/-- Priority cascade of the sitemap builder, written in source order: home,
then the services group, then the contact group, then the default. -/
def priorityOf (n : List Char) : ℚ :=
  if n == ['/'] then 1
  else if leadsWith "/services".data n || leadsWith "/es/servicios".data n then 8/10
  else if leadsWith "/contact".data n || leadsWith "/es/contacto".data n then 9/10
  else 7/10

/-- Priority cascade exactly as the specification lists it: home, then the
contact group, then the services group, then the default.  Kept separate so
the order-independence of the two cascades can be stated. -/
def claimPriority (n : List Char) : ℚ :=
  if n == ['/'] then 1
  else if leadsWith "/contact".data n || leadsWith "/es/contacto".data n then 9/10
  else if leadsWith "/services".data n || leadsWith "/es/servicios".data n then 8/10
  else 7/10

/-- One sitemap url record as written into the SitemapStream. -/
structure SitemapLink where
  url : List Char
  changefreq : List Char
  priority : ℚ
deriving DecidableEq

/-- Construction of the link records from the globby listing: strip the
public root, collapse a directory index, attach the weekly change frequency
and the derived priority. -/
def buildLinks (files : List (List Char)) : List SitemapLink :=
  (globFilter files).map fun p =>
    let n := normalizeUrl (stripPub p)
    { url := n, changefreq := "weekly".data, priority := priorityOf n }

/-- Fallback origin hard coded in the sitemap builder. -/
def fallbackOrigin : List Char := "https://www.gringo787.com".data

/-- Model of the line SITE_URL = process.env.SITE_URL or-else fallback: an
unset variable, and also an empty value (falsy in JS), fall back. -/
def siteUrl (env : Option (List Char)) : List Char :=
  match env with
  | none => fallbackOrigin
  | some s => if s.isEmpty then fallbackOrigin else s

/-- Modelled from the spec: the external sitemap package resolves each
relative url against the configured hostname, yielding origin ++ path for a
slash-leading path under a no-trailing-slash origin. -/
def absUrl (origin path : List Char) : List Char := origin ++ path

/-- Desired robots content computed in the finish handler of the sitemap
builder. -/
def desiredRobots (origin : List Char) : List Char :=
  "User-agent: *\nAllow: /\nSitemap: ".data ++ origin ++ "/sitemap.xml\n".data

/-- One robots reconciliation step: the existing file is read when present
(a missing file reads as empty content), trimmed contents are compared, and
the file is overwritten only on a difference.  The result is the on-disk
content after the step together with a flag recording whether a write
happened. -/
def robotsStep (origin : List Char) (existing : Option (List Char)) :
    List Char × Bool :=
  let current := existing.getD []
  if jsTrim current == jsTrim (desiredRobots origin) then (current, false)
  else (desiredRobots origin, true)

/-- Outputs of one full run of the sitemap builder. -/
structure BuildOutput where
  links : List SitemapLink
  locs : List (List Char)
  robotsContent : List Char
  robotsWrite : Bool
deriving DecidableEq

/-- One full run of the sitemap builder: select the origin, build the link
records from the listing, emit the absolute locations, then reconcile the
robots file against its prior on-disk content. -/
def runBuilder (env : Option (List Char)) (files : List (List Char))
    (robotsOnDisk : Option (List Char)) : BuildOutput :=
  let origin := siteUrl env
  let links := buildLinks files
  let r := robotsStep origin robotsOnDisk
  { links := links
    locs := links.map (fun l => absUrl origin l.url)
    robotsContent := r.1
    robotsWrite := r.2 }

/-- Observable outcome of one script process: its exit code, the directories
it created, and the files it successfully wrote. -/
structure RunResult where
  exitCode : Nat
  dirsCreated : List (List Char)
  filesWritten : List (List Char)
deriving DecidableEq

/-- Model of the legacy scripts/seo.js control flow: the whole body sits in
one try block whose catch handler calls process.exit(1).  A failure to
obtain the listing, or a failed sitemap write, ends the process with exit
code 1; no retry happens and no directory is ever created. -/
def seoRun (listing : Except Unit (List (List Char))) (writeOk : Bool) :
    RunResult :=
  match listing with
  | .error _ => { exitCode := 1, dirsCreated := [], filesWritten := [] }
  | .ok _ =>
    if writeOk then
      { exitCode := 0, dirsCreated := [], filesWritten := ["public/sitemap.xml".data] }
    else
      { exitCode := 1, dirsCreated := [], filesWritten := [] }

/-- Model of scripts/robots.js: when the public directory is missing it is
created with mkdirSync, the robots file is then written unconditionally, and
the process completes with exit code 0. -/
def robotsRun (_isProd : Bool) (publicDirExists : Bool) : RunResult :=
  { exitCode := 0
    dirsCreated := if publicDirExists then [] else ["public".data]
    filesWritten := ["public/robots.txt".data] }

/-- One top-level html file of the dist directory, given by its name and the
stylesheet href and script src attribute values collected from it. -/
structure HtmlDoc where
  name : List Char
  assetRefs : List (List Char)
deriving DecidableEq

/-- Model of link.split(query mark)[0]: the characters before the first
question mark. -/
def cleanLink (link : List Char) : List Char :=
  link.takeWhile (fun c => c != '?')

/-- Model of the anchored leading-slash replace: one leading slash is
removed, everything else passes unchanged. -/
def dropLeadSlash : List Char → List Char
  | '/' :: t => t
  | s => s

/-- Decision that one referenced link is reported missing by the validator:
falsy (empty) links are skipped, the query string and one leading slash are
stripped, and the result is looked up in the dist tree through the abstract
existence test. -/
def isMissingRef (fileEx : List Char → Bool) (link : List Char) : Bool :=
  !link.isEmpty && !fileEx (dropLeadSlash (cleanLink link))

/-- Accumulation of the missing-asset reports over the top-level html files,
in source order, pairing each html file name with the raw link text. -/
def missingAssets (fileEx : List Char → Bool) :
    List HtmlDoc → List (List Char × List Char)
  | [] => []
  | d :: ds =>
    (d.assetRefs.filter (isMissingRef fileEx)).map (fun l => (d.name, l))
      ++ missingAssets fileEx ds

/-- Model of scripts/validate-build.js: exit 1 when dist is missing, exit 1
when at least one referenced asset is missing, exit 0 otherwise.  The script
only reads, so no directory is created and no file is written. -/
def validateBuild (distExists : Bool) (docs : List HtmlDoc)
    (fileEx : List Char → Bool) : RunResult :=
  if !distExists then { exitCode := 1, dirsCreated := [], filesWritten := [] }
  else if !(missingAssets fileEx docs).isEmpty then
    { exitCode := 1, dirsCreated := [], filesWritten := [] }
  else { exitCode := 0, dirsCreated := [], filesWritten := [] }

/-- File listing of the end-to-end scenario, as globby would report it under
the public root. -/
def demoFiles : List (List Char) :=
  ["public/index.html".data,
   "public/services/index.html".data,
   "public/contact/index.html".data,
   "public/404.html".data,
   "public/thanks/index.html".data]

/-- Origin of the end-to-end scenario. -/
def exOrigin : List Char := "https://www.example.com".data

/-- C1: for origin https://www.example.com and the five-file demo listing,
the builder emits exactly three entries, home with priority 1.0, services
with priority 0.8 and contact with priority 0.9, and (starting from no prior
robots file) leaves the robots content exactly equal to the three-line
directive for that origin. -/
theorem c1_end_to_end :
    (runBuilder (some exOrigin) demoFiles none).locs =
      ["https://www.example.com/".data,
       "https://www.example.com/services/".data,
       "https://www.example.com/contact/".data] ∧
    (runBuilder (some exOrigin) demoFiles none).links.map (fun l => l.priority) =
      [1, 8/10, 9/10] ∧
    (runBuilder (some exOrigin) demoFiles none).robotsContent =
      "User-agent: *\nAllow: /\nSitemap: https://www.example.com/sitemap.xml\n".data :=
  ⟨rfl, rfl, by decide⟩

/-- Characterization of leadsWith as list-prefix decomposition. -/
theorem leadsWith_iff (pat s : List Char) :
    leadsWith pat s = true ↔ ∃ r, s = pat ++ r := by
  induction pat generalizing s with
  | nil => simp [leadsWith]
  | cons a pa ih =>
    cases s with
    | nil => simp [leadsWith]
    | cons b pb =>
      simp only [leadsWith, Bool.and_eq_true, beq_iff_eq, ih, List.cons_append]
      constructor
      · rintro ⟨rfl, r, rfl⟩
        exact ⟨r, rfl⟩
      · rintro ⟨r, h⟩
        cases h
        exact ⟨rfl, r, rfl⟩

/-- Characterization of containsSub as a three-way decomposition. -/
theorem containsSub_iff (pat s : List Char) :
    containsSub pat s = true ↔ ∃ u v, s = u ++ pat ++ v := by
  induction s with
  | nil =>
    simp only [containsSub, leadsWith_iff]
    constructor
    · rintro ⟨r, h⟩
      exact ⟨[], r, by simp [h]⟩
    · rintro ⟨u, v, h⟩
      have h' : u ++ (pat ++ v) = [] := by simpa [List.append_assoc] using h.symm
      rcases List.append_eq_nil.mp h' with ⟨hu, hpv⟩
      rcases List.append_eq_nil.mp hpv with ⟨hpat, hv⟩
      exact ⟨[], by simp [hpat]⟩
  | cons c cs ih =>
    simp only [containsSub, Bool.or_eq_true, leadsWith_iff, ih]
    constructor
    · rintro (⟨r, h⟩ | ⟨u, v, h⟩)
      · exact ⟨[], r, by simp [h]⟩
      · exact ⟨c :: u, v, by simp [h]⟩
    · rintro ⟨u, v, h⟩
      cases u with
      | nil => exact Or.inl ⟨v, by simpa using h⟩
      | cons x u =>
        simp only [List.cons_append, List.cons.injEq] at h
        exact Or.inr ⟨u, v, h.2⟩

/-- Every list starts with itself followed by anything. -/
theorem leadsWith_self_append (pat r : List Char) :
    leadsWith pat (pat ++ r) = true :=
  (leadsWith_iff _ _).mpr ⟨r, rfl⟩

/-- Every list ends with its own final run. -/
theorem trailsWith_append (t pat : List Char) :
    trailsWith pat (t ++ pat) = true := by
  unfold trailsWith
  rw [List.reverse_append]
  exact leadsWith_self_append _ _

/-- When the pattern occurs nowhere before its final position, replaceFirst
on t ++ pat rewrites exactly the final occurrence. -/
theorem replaceFirst_tail (pat rep t : List Char) (hp : pat ≠ [])
    (h : containsSub pat (t ++ pat.dropLast) = false) :
    replaceFirst pat rep (t ++ pat) = t ++ rep := by
  induction t with
  | nil =>
    cases pat with
    | nil => exact absurd rfl hp
    | cons a pa =>
      show replaceFirst (a :: pa) rep (a :: pa) = rep
      have hl : leadsWith (a :: pa) (a :: pa) = true := by
        simpa using leadsWith_self_append (a :: pa) []
      unfold replaceFirst
      rw [if_pos hl, List.drop_length, List.append_nil]
  | cons c t ih =>
    have hfalse : leadsWith pat (c :: (t ++ pat)) = false := by
      cases hlw : leadsWith pat (c :: (t ++ pat)) with
      | false => rfl
      | true =>
        exfalso
        rcases (leadsWith_iff _ _).mp hlw with ⟨r, hr⟩
        have hrne : r ≠ [] := by
          intro hnil
          rw [hnil, List.append_nil] at hr
          have := congrArg List.length hr
          simp at this
          omega
        have hdrop : (c :: t) ++ pat.dropLast = pat ++ r.dropLast := by
          have h1 : ((c :: t) ++ pat).dropLast = (c :: t) ++ pat.dropLast :=
            List.dropLast_append_of_ne_nil _ hp
          have h2 : (pat ++ r).dropLast = pat ++ r.dropLast :=
            List.dropLast_append_of_ne_nil _ hrne
          have h3 : (c :: t) ++ pat = pat ++ r := by simpa using hr
          rw [← h1, h3, h2]
        have : containsSub pat ((c :: t) ++ pat.dropLast) = true :=
          (containsSub_iff _ _).mpr ⟨[], r.dropLast, by simpa using hdrop⟩
        rw [this] at h
        simp at h
    have hrest : containsSub pat (t ++ pat.dropLast) = false := by
      have hcons : containsSub pat (c :: (t ++ pat.dropLast)) = false := by
        simpa using h
      simp only [containsSub, Bool.or_eq_false_iff] at hcons
      exact hcons.2
    show replaceFirst pat rep (c :: (t ++ pat)) = c :: (t ++ rep)
    unfold replaceFirst
    rw [if_neg (by simp [hfalse])]
    exact congrArg (c :: ·) (ih hrest)

/-- C3 counterexample: the page file public/myindex.html passes the globs,
its derived URL is kept verbatim and contains the substring index.html, and
a path in which /index.html also occurs before the final suffix has its
FIRST occurrence rewritten, not the suffix.  Both effects refute the claim
as stated. -/
theorem c3_counterexample :
    (buildLinks ["public/myindex.html".data]).map (fun l => l.url) =
      ["/myindex.html".data] ∧
    containsSub "index.html".data "/myindex.html".data = true ∧
    normalizeUrl "/index.html/index.html".data = "//index.html".data := by
  refine ⟨by decide, by decide, by decide⟩

/-- C3 amended: the URL derivation rewrites the FIRST occurrence of
/index.html; for every path whose occurrences of the pattern are confined
to the terminal suffix, the suffix is replaced by a slash and the output is
free of index.html, and every path not ending in /index.html is kept
verbatim. -/
theorem c3_amended (t : List Char)
    (h1 : containsSub slashIndexHtml (t ++ "/index.htm".data) = false)
    (h2 : containsSub "index.html".data (t ++ ['/']) = false) :
    normalizeUrl (t ++ slashIndexHtml) = t ++ ['/'] ∧
    containsSub "index.html".data (normalizeUrl (t ++ slashIndexHtml)) = false ∧
    ∀ p, trailsWith slashIndexHtml p = false → normalizeUrl p = p := by
  have hmain : normalizeUrl (t ++ slashIndexHtml) = t ++ ['/'] := by
    unfold normalizeUrl
    rw [if_pos (trailsWith_append t slashIndexHtml)]
    have hdl : slashIndexHtml.dropLast = "/index.htm".data := by decide
    exact replaceFirst_tail slashIndexHtml ['/'] t (by decide) (by rw [hdl]; exact h1)
  refine ⟨hmain, ?_, ?_⟩
  · rw [hmain]
    exact h2
  · intro p hp
    simp [normalizeUrl, hp]

/-- Witness for the amended C3 statement at the services index page. -/
theorem c3_amended_witness :
    normalizeUrl ("/services".data ++ slashIndexHtml) = "/services".data ++ ['/'] :=
  (c3_amended "/services".data (by decide) (by decide)).1

/-- When two patterns both lead a list, the shorter leads the longer. -/
theorem leadsWith_of_le (p q n : List Char) (hp : leadsWith p n = true)
    (hq : leadsWith q n = true) (hlen : p.length ≤ q.length) :
    leadsWith p q = true := by
  rcases (leadsWith_iff _ _).mp hp with ⟨r, hr⟩
  rcases (leadsWith_iff _ _).mp hq with ⟨s, hs⟩
  rcases List.prefix_of_prefix_length_le ⟨r, hr.symm⟩ ⟨s, hs.symm⟩ hlen with ⟨m, hm⟩
  exact (leadsWith_iff _ _).mpr ⟨m, hm.symm⟩

/-- Exclusivity of the two priority groups: a normalized path in the
services group is never in the contact group. -/
theorem servicesGroup_excl_contact (n : List Char)
    (hs : leadsWith "/services".data n = true ∨
      leadsWith "/es/servicios".data n = true) :
    leadsWith "/contact".data n = false ∧
    leadsWith "/es/contacto".data n = false := by
  constructor
  · cases hc : leadsWith "/contact".data n with
    | false => rfl
    | true =>
      exfalso
      rcases hs with h | h
      · exact absurd (leadsWith_of_le _ _ n hc h (by decide)) (by decide)
      · exact absurd (leadsWith_of_le _ _ n hc h (by decide)) (by decide)
  · cases hc : leadsWith "/es/contacto".data n with
    | false => rfl
    | true =>
      exfalso
      rcases hs with h | h
      · exact absurd (leadsWith_of_le _ _ n h hc (by decide)) (by decide)
      · exact absurd (leadsWith_of_le _ _ n hc h (by decide)) (by decide)

/-- C4: the priority cascade of the source and the cascade in the order the
claim lists agree on every normalized path, because the services and
contact prefix groups are mutually exclusive. -/
theorem c4_priority_order (n : List Char) : priorityOf n = claimPriority n := by
  by_cases h0 : (n == ['/']) = true
  · simp [priorityOf, claimPriority, h0]
  · cases hS : (leadsWith "/services".data n || leadsWith "/es/servicios".data n) with
    | true =>
      have hexcl := servicesGroup_excl_contact n (by simpa using hS)
      simp [priorityOf, claimPriority, h0, hS, hexcl.1, hexcl.2]
    | false =>
      simp [priorityOf, claimPriority, h0, hS]

/-- Splitting a filtered count along an auxiliary test. -/
theorem length_filter_and_split (A E : List Char → Bool) (l : List (List Char)) :
    (l.filter fun p => A p && !E p).length
      + (l.filter fun p => A p && E p).length
      = (l.filter A).length := by
  induction l with
  | nil => simp
  | cons x xs ih =>
    cases hA : A x <;> cases hE : E x <;>
      simp [List.filter_cons, hA, hE] <;> omega

/-- C2: the number of emitted sitemap entries is the number of html files
under public minus the excluded ones, the excluded set being exactly the
root not-found page and every thanks index page, and no excluded page ever
survives the glob filtering. -/
theorem c2_entry_count (files : List (List Char)) :
    (buildLinks files).length =
      (files.filter isHtmlGlob).length -
        (files.filter fun p => isHtmlGlob p && isExcludedPage p).length ∧
    ∀ p, isExcludedPage p = true → p ∉ globFilter files := by
  constructor
  · have h := length_filter_and_split isHtmlGlob isExcludedPage files
    have hlen : (buildLinks files).length = (globFilter files).length := by
      simp [buildLinks]
    rw [hlen]
    unfold globFilter
    omega
  · intro p hex hmem
    rcases List.mem_filter.mp hmem with ⟨_, hcond⟩
    rw [Bool.and_eq_true] at hcond
    rw [hex] at hcond
    simp at hcond

/-- Witness for C2: the excluded not-found page never survives the filter
on the demo listing. -/
theorem c2_entry_count_witness :
    "public/404.html".data ∉ globFilter demoFiles :=
  (c2_entry_count demoFiles).2 "public/404.html".data (by decide)

/-- C5: a robots file whose trimmed content equals the trimmed desired
directive is left untouched with no write; a differing one is overwritten
with exactly the desired directive; a missing file behaves as empty
content. -/
theorem c5_robots_reconciliation (origin cur : List Char) :
    (jsTrim cur = jsTrim (desiredRobots origin) →
      robotsStep origin (some cur) = (cur, false)) ∧
    (jsTrim cur ≠ jsTrim (desiredRobots origin) →
      robotsStep origin (some cur) = (desiredRobots origin, true)) ∧
    robotsStep origin none = robotsStep origin (some []) := by
  refine ⟨?_, ?_, rfl⟩
  · intro h
    simp [robotsStep, h]
  · intro h
    simp [robotsStep, h]

/-- Witness for C5 at a stale robots content. -/
theorem c5_robots_reconciliation_witness :
    robotsStep exOrigin (some "stale".data) = (desiredRobots exOrigin, true) :=
  (c5_robots_reconciliation exOrigin "stale".data).2.1 (by decide)

/-- The content left on disk by one reconciliation step always trims to the
trimmed desired directive. -/
theorem robotsStep_trim_eq (origin : List Char) (x : Option (List Char)) :
    jsTrim (robotsStep origin x).1 = jsTrim (desiredRobots origin) := by
  by_cases hc : jsTrim (x.getD []) = jsTrim (desiredRobots origin)
  · simp [robotsStep, hc]
  · simp [robotsStep, hc]

/-- C6: a second run of the builder on the unchanged listing and the robots
content left by the first run reproduces the sitemap output exactly and
performs no robots write. -/
theorem c6_idempotence (env : Option (List Char)) (files : List (List Char))
    (robots0 : Option (List Char)) :
    runBuilder env files (some (runBuilder env files robots0).robotsContent) =
      { links := (runBuilder env files robots0).links
        locs := (runBuilder env files robots0).locs
        robotsContent := (runBuilder env files robots0).robotsContent
        robotsWrite := false } := by
  have hstep : ∀ c : List Char, jsTrim c = jsTrim (desiredRobots (siteUrl env)) →
      robotsStep (siteUrl env) (some c) = (c, false) := by
    intro c hc
    simp [robotsStep, hc]
  simp [runBuilder,
    hstep (robotsStep (siteUrl env) robots0).1
      (robotsStep_trim_eq (siteUrl env) robots0)]

/-- A list headed by a non-space character never trims to nothing. -/
theorem jsTrim_cons_ne_nil (c : Char) (xs : List Char)
    (hc : isJsSpace c = false) : jsTrim (c :: xs) ≠ [] := by
  unfold jsTrim
  intro h
  rw [List.dropWhile_cons] at h
  rw [hc] at h
  simp only [Bool.false_eq_true, if_false, List.reverse_eq_nil_iff] at h
  have hmem : c ∈ (c :: xs).reverse := by simp
  have := List.dropWhile_eq_nil_iff.mp h c hmem
  rw [hc] at this
  exact Bool.false_ne_true this

/-- A reconciliation step against a missing robots file always writes the
desired directive. -/
theorem robotsStep_none_eq (origin : List Char) :
    robotsStep origin none = (desiredRobots origin, true) := by
  have hne : jsTrim (desiredRobots origin) ≠ [] := by
    have hshape : desiredRobots origin =
        'U' :: ("ser-agent: *\nAllow: /\nSitemap: ".data ++ origin
          ++ "/sitemap.xml\n".data) := rfl
    rw [hshape]
    exact jsTrim_cons_ne_nil _ _ (by decide)
  have hcond : (jsTrim ([] : List Char) == jsTrim (desiredRobots origin)) = false := by
    cases hb : (jsTrim ([] : List Char) == jsTrim (desiredRobots origin)) with
    | false => rfl
    | true =>
      exfalso
      apply hne
      have heq : jsTrim ([] : List Char) = jsTrim (desiredRobots origin) := by
        simpa using hb
      have h0 : jsTrim ([] : List Char) = [] := rfl
      rw [h0] at heq
      exact heq.symm
  simp [robotsStep, hcond]

/-- C7: the configured origin is the environment value when one is supplied
as an https url (nonempty, so not falsy); an unset variable yields the one
hard-coded fallback; and every absolute url the run emits, the sitemap
locations as well as the robots Sitemap directive, is origin ++ path. -/
theorem c7_origin (env : Option (List Char)) (files : List (List Char))
    (s : List Char) :
    (env = some s → leadsWith "https://".data s = true → siteUrl env = s) ∧
    (env = none → siteUrl env = fallbackOrigin) ∧
    (runBuilder env files none).locs =
      (buildLinks files).map (fun l => siteUrl env ++ l.url) ∧
    (runBuilder env files none).robotsContent =
      "User-agent: *\nAllow: /\nSitemap: ".data ++ siteUrl env
        ++ "/sitemap.xml\n".data := by
  refine ⟨?_, ?_, ?_, ?_⟩
  · rintro rfl hls
    have hne : s ≠ [] := by
      rcases (leadsWith_iff _ _).mp hls with ⟨r, hr⟩
      rw [hr]
      simp
    simp [siteUrl, hne]
  · rintro rfl
    rfl
  · simp [runBuilder, absUrl]
  · simp [runBuilder, robotsStep_none_eq, desiredRobots]

/-- Witness for C7 at the example origin. -/
theorem c7_origin_witness : siteUrl (some exOrigin) = exOrigin :=
  (c7_origin (some exOrigin) [] exOrigin).1 rfl (by decide)

/-- The priority cascade only ever produces the four listed constants. -/
theorem priorityOf_cases (n : List Char) :
    priorityOf n = 1 ∨ priorityOf n = 9/10 ∨ priorityOf n = 8/10 ∨
      priorityOf n = 7/10 := by
  unfold priorityOf
  split_ifs <;> simp

/-- C8: every emitted entry carries the weekly change frequency, and its
priority is one of 1, 0.9, 0.8, 0.7, hence within the unit interval. -/
theorem c8_invariants (files : List (List Char)) (l : SitemapLink)
    (h : l ∈ buildLinks files) :
    l.changefreq = "weekly".data ∧
    (l.priority = 1 ∨ l.priority = 9/10 ∨ l.priority = 8/10 ∨
      l.priority = 7/10) ∧
    0 ≤ l.priority ∧ l.priority ≤ 1 := by
  rcases List.mem_map.mp h with ⟨p, hp, rfl⟩
  refine ⟨rfl, priorityOf_cases _, ?_, ?_⟩ <;>
    rcases priorityOf_cases (normalizeUrl (stripPub p)) with h4 | h4 | h4 | h4 <;>
      rw [show (priorityOf (normalizeUrl (stripPub p))) =
        ((fun q => let n := normalizeUrl (stripPub q)
          ({ url := n, changefreq := "weekly".data, priority := priorityOf n }
            : SitemapLink)) p).priority from rfl] at h4 <;>
      rw [h4] <;> norm_num

/-- Witness for C8 at the home entry of the demo listing. -/
theorem c8_invariants_witness :
    (SitemapLink.mk ['/'] "weekly".data 1).changefreq = "weekly".data ∧
    ((SitemapLink.mk ['/'] "weekly".data 1).priority = 1 ∨
      (SitemapLink.mk ['/'] "weekly".data 1).priority = 9/10 ∨
      (SitemapLink.mk ['/'] "weekly".data 1).priority = 8/10 ∨
      (SitemapLink.mk ['/'] "weekly".data 1).priority = 7/10) ∧
    0 ≤ (SitemapLink.mk ['/'] "weekly".data 1).priority ∧
    (SitemapLink.mk ['/'] "weekly".data 1).priority ≤ 1 :=
  c8_invariants demoFiles (SitemapLink.mk ['/'] "weekly".data 1)
    (List.Mem.head _)

/-- C9 counterexample: with the public output root missing, the standalone
robots generator creates the directory and completes with exit code 0,
refuting the claimed non-zero exit with no creation of the missing root. -/
theorem c9_counterexample :
    (robotsRun true false).exitCode = 0 ∧
    (robotsRun true false).dirsCreated = ["public".data] :=
  ⟨rfl, rfl⟩

/-- C9 amended: the sitemap generator ends with exit code 1 on a failed
listing read or a failed sitemap write, creating no directory and retrying
nothing, while the standalone robots generator creates a missing output
root and exits 0. -/
theorem c9_amended (writeOk : Bool) (pages : List (List Char))
    (isProd : Bool) :
    seoRun (Except.error ()) writeOk =
      { exitCode := 1, dirsCreated := [], filesWritten := [] } ∧
    seoRun (Except.ok pages) false =
      { exitCode := 1, dirsCreated := [], filesWritten := [] } ∧
    (robotsRun isProd false).exitCode = 0 ∧
    (robotsRun isProd false).dirsCreated = ["public".data] :=
  ⟨rfl, rfl, rfl, rfl⟩

/-- Unfolding of the missing-asset test into its two observable parts. -/
theorem isMissingRef_eq_true_iff (fileEx : List Char → Bool)
    (link : List Char) :
    isMissingRef fileEx link = true ↔
      link.isEmpty = false ∧
        fileEx (dropLeadSlash (cleanLink link)) = false := by
  cases he : link.isEmpty <;>
    cases hf : fileEx (dropLeadSlash (cleanLink link)) <;>
      simp [isMissingRef, he, hf]

/-- The missing-asset accumulation is inhabited exactly when some document
references a missing asset. -/
theorem exists_missing_iff (fileEx : List Char → Bool) (docs : List HtmlDoc) :
    (∃ pair, pair ∈ missingAssets fileEx docs) ↔
      ∃ d ∈ docs, ∃ link ∈ d.assetRefs, isMissingRef fileEx link = true := by
  induction docs with
  | nil => simp [missingAssets]
  | cons d ds ih =>
    simp only [missingAssets, List.mem_append, List.mem_map, List.mem_filter,
      List.mem_cons]
    constructor
    · rintro ⟨pair, (⟨link, ⟨hmem, hmiss⟩, rfl⟩ | hpair)⟩
      · exact ⟨d, Or.inl rfl, link, hmem, hmiss⟩
      · rcases ih.mp ⟨pair, hpair⟩ with ⟨d2, hd2, link, hmem, hmiss⟩
        exact ⟨d2, Or.inr hd2, link, hmem, hmiss⟩
    · rintro ⟨d2, (rfl | hd2), link, hmem, hmiss⟩
      · exact ⟨(d2.name, link), Or.inl ⟨link, ⟨hmem, hmiss⟩, rfl⟩⟩
      · rcases ih.mpr ⟨d2, hd2, link, hmem, hmiss⟩ with ⟨pair, hpair⟩
        exact ⟨pair, Or.inr hpair⟩

/-- C10: the validator exits 1 exactly when the dist directory is missing or
some stylesheet or script reference of a top-level html file, after query
and leading-slash stripping, is absent from dist; it exits 0 otherwise and
never creates or writes anything. -/
theorem c10_validator (distExists : Bool) (docs : List HtmlDoc)
    (fileEx : List Char → Bool) :
    ((validateBuild distExists docs fileEx).exitCode = 1 ↔
      (distExists = false ∨ ∃ d ∈ docs, ∃ link ∈ d.assetRefs,
        link.isEmpty = false ∧
          fileEx (dropLeadSlash (cleanLink link)) = false)) ∧
    (validateBuild distExists docs fileEx).dirsCreated = [] ∧
    (validateBuild distExists docs fileEx).filesWritten = [] := by
  have hiff : (∃ pair, pair ∈ missingAssets fileEx docs) ↔
      ∃ d ∈ docs, ∃ link ∈ d.assetRefs,
        link.isEmpty = false ∧
          fileEx (dropLeadSlash (cleanLink link)) = false := by
    rw [exists_missing_iff]
    constructor
    · rintro ⟨d, hd, link, hlink, hmiss⟩
      exact ⟨d, hd, link, hlink, (isMissingRef_eq_true_iff _ _).mp hmiss⟩
    · rintro ⟨d, hd, link, hlink, hmiss⟩
      exact ⟨d, hd, link, hlink, (isMissingRef_eq_true_iff _ _).mpr hmiss⟩
  cases distExists with
  | false => simp [validateBuild]
  | true =>
    cases hm : (missingAssets fileEx docs).isEmpty with
    | true =>
      have hnone : missingAssets fileEx docs = [] := List.isEmpty_iff.mp hm
      refine ⟨?_, by simp [validateBuild, hm], by simp [validateBuild, hm]⟩
      simp only [validateBuild, hm]
      constructor
      · intro h
        simp at h
      · intro h
        rcases h with h | h
        · exact absurd h (by simp)
        · rcases hiff.mpr h with ⟨pair, hpair⟩
          rw [hnone] at hpair
          simp at hpair
    | false =>
      refine ⟨?_, by simp [validateBuild, hm], by simp [validateBuild, hm]⟩
      simp only [validateBuild, hm]
      constructor
      · intro _
        have hne : missingAssets fileEx docs ≠ [] := by
          intro h
          rw [h] at hm
          simp at hm
        exact Or.inr (hiff.mp (List.exists_mem_of_ne_nil _ hne))
      · intro _
        simp
